import Mathlib

/-!
Verification of the mini-docker bootstrap pipeline (`app/main.go`).

The Go program resolves an image against the Docker registry, extracts its
layers into a temporary chroot jail, provisions the target binary, chroots,
and runs the target in fresh PID/UTS namespaces, propagating its exit code.

This file embeds the program shallowly:
* filesystem paths are lists of components; `filepath.Clean`, `filepath.Join`,
  `filepath.Dir` and `filepath.Rel` are modelled on cleaned component lists;
* the jail filesystem is an association list from (jail-relative) paths to
  nodes; layer extraction (`extractTarGz`, `getAllLayers`) is a fold over
  archive entries with injectable I/O failures;
* registry interaction is modelled by the decoded responses
  (`getManifestUrl`'s platform scan, `getImageManifest`'s JSON decode) plus
  the literal URL/scope strings the code builds;
* `main` is modelled as a function from an oracle of step outcomes to the
  ordered trace of side-effecting steps attempted, the stderr output and the
  process exit status.
-/

namespace MiniDocker

/-! ## Path model

A cleaned absolute path is a list of components, none of which is `""`, `"."`
or `".."` (the root is `[]`).  `filepath.Clean` on an absolute path processes
components left to right, dropping `"."`/empty components and letting `".."`
remove the previous component (clamping at the root, as `/..` = `/`). -/

/-- One step of `filepath.Clean` on an absolute path: `acc` is the cleaned
prefix so far, `c` the next component. -/
def cleanStep (acc : List String) (c : String) : List String :=
  if c = "" ∨ c = "." then acc
  else if c = ".." then acc.dropLast
  else acc ++ [c]

/-- `filepath.Clean` for absolute paths, on component lists. -/
def cleanComps (cs : List String) : List String :=
  cs.foldl cleanStep []

/-- A component list is normal when it contains no `""`, `"."` or `".."`:
exactly the cleaned paths that `filepath.Clean` leaves unchanged. -/
def NormalComps (cs : List String) : Prop :=
  ∀ c ∈ cs, c ≠ "" ∧ c ≠ "." ∧ c ≠ ".."

instance : DecidablePred NormalComps := fun cs =>
  inferInstanceAs (Decidable (∀ c ∈ cs, c ≠ "" ∧ c ≠ "." ∧ c ≠ ".."))

/-- `filepath.Join(base, p)` concatenates and cleans; on component lists of an
absolute `base` this is cleaning of the concatenation (a leading `/` in `p`
disappears in the join, so absolute and root-relative `p` coincide). -/
def joinComps (base p : List String) : List String :=
  cleanComps (base ++ p)

/-- Longest-common-prefix splitter backing `filepath.Rel`. -/
def dropCommon : List String → List String → List String × List String
  | x :: xs, y :: ys => if x = y then dropCommon xs ys else (x :: xs, y :: ys)
  | xs, ys => (xs, ys)

/-- `filepath.Rel(base, target)` on cleaned absolute component lists: strip the
common prefix, then one `".."` per remaining base component followed by the
remaining target components. -/
def relComps (base target : List String) : List String :=
  let rest := dropCommon base target
  List.replicate rest.1.length ".." ++ rest.2

/-- `filepath.Dir` on a cleaned absolute component list drops the last
component. -/
def dirComps (p : List String) : List String :=
  p.dropLast

/-- The stored target of the symlink the code creates for a tar entry with
path `name` and link target `linkname`:
`filepath.Rel(filepath.Dir(filepath.Join(dest, name)), filepath.Join(dest, linkname))`
(main.go, `extractTarGz`, case `tar.TypeSymlink`). -/
def symlinkStoredTarget (dest name linkname : List String) : List String :=
  relComps (dirComps (joinComps dest name)) (joinComps dest linkname)

/-- Reading a relative symlink stored at jail-relative path `linkPath` with
relative target `target`, with the jail root treated as the filesystem root:
the target is resolved against the link's own directory and cleaned (`..`
clamps at the root, as the kernel does at `/`). -/
def resolveFromJail (linkPath target : List String) : List String :=
  cleanComps (dirComps linkPath ++ target)

/-! ## Filesystem and layer-extraction model

The jail filesystem is an association list from absolute cleaned paths to
nodes; `Fs.set` shadows earlier bindings, `Fs.get` reads the newest one.
Archive entries carry injectable I/O failures, since in the Go code success
or failure of each `os.*` call is decided by the operating system. -/

inductive FsNode
  | dir (mode : Nat)
  | file (content : String) (mode : Nat)
  | symlink (target : List String) (mode : Nat)
  deriving DecidableEq, Repr

def Fs := List (List String × FsNode)
  deriving DecidableEq, Repr

def Fs.set (fs : Fs) (p : List String) (n : FsNode) : Fs :=
  (p, n) :: fs

def Fs.get : Fs → List String → Option FsNode
  | [], _ => none
  | (q, n) :: fs, p => if q = p then some n else Fs.get fs p

def FsNode.withMode : FsNode → Nat → FsNode
  | .dir _, m => .dir m
  | .file c _, m => .file c m
  | .symlink t _, m => .symlink t m

/-- One step of `os.MkdirAll`: ensure the directory made of the first
`i + 1` components exists. -/
def mkdirStep (p : List String) (mode : Nat) (acc : Fs) (i : Nat) : Fs :=
  match acc.get (p.take (i + 1)) with
  | some _ => acc
  | none => acc.set (p.take (i + 1)) (.dir mode)

/-- `os.MkdirAll(p, mode)`: create every missing directory along the path,
leaving already-existing nodes untouched. -/
def mkdirAll (fs : Fs) (p : List String) (mode : Nat) : Fs :=
  (List.range p.length).foldl (mkdirStep p mode) fs

/-- Tar entry type flags handled by `extractTarGz` (`tar.TypeDir`,
`tar.TypeReg`, `tar.TypeSymlink`); every other flag falls into the silently
skipped `default` branch. -/
inductive TypeFlag
  | dir | reg | symlink | other
  deriving DecidableEq, Repr

/-- The parts of a `tar.Header` the code reads: `Name`, `Typeflag`,
`Linkname` (both as path components; a leading `/` in `Linkname` is
immaterial under `filepath.Join`) and `FileInfo().Mode()`. -/
structure Header where
  name : List String
  typeflag : TypeFlag
  linkname : List String
  mode : Nat
  deriving DecidableEq, Repr

/-- A tar entry: its header plus the file bytes that follow it. -/
structure Entry where
  header : Header
  content : String
  deriving DecidableEq, Repr

/-- Injectable failures for the `os` calls made while processing one entry;
`none` means the call succeeds.  `chmodErr` is a non-`IsNotExist` failure of
the trailing `os.Chmod` (the `IsNotExist` case arises from the filesystem
state itself and is modelled directly). -/
structure IOFail where
  mkdirErr : Option String
  createErr : Option String
  copyErr : Option String
  closeErr : Option String
  symlinkErr : Option String
  chmodErr : Option String
  deriving DecidableEq, Repr

/-- An entry with no injected failures. -/
def noFail : IOFail := ⟨none, none, none, none, none, none⟩

/-- One item yielded by `tarReader.Next()`: an entry, or a non-EOF read
error. -/
inductive TarItem
  | entry (e : Entry) (io : IOFail)
  | readErr (msg : String)
  deriving DecidableEq, Repr

/-- Outcome of extraction: a returned `error`, or a runtime panic (the Go
code calls `panic` on the filesystem-write failures).  Each carries the
filesystem state reached. -/
inductive ExtractResult
  | ok (fs : Fs)
  | err (msg : String) (fs : Fs)
  | panicked (msg : String) (fs : Fs)
  deriving DecidableEq, Repr

/-- The body of `extractTarGz`'s per-entry `switch` plus the trailing
`os.Chmod`.  A panic is returned as `.error (msg, partial state)`.

`os.Create` creates/truncates with mode `0o666`; the node's final mode comes
from the trailing `os.Chmod(targetPath, header.FileInfo().Mode())`.  That
`Chmod` dereferences a symbolic link at `targetPath`; the model applies the
mode at the entry's own path, which coincides for the directory and
regular-file entries the claims quantify over, and an `IsNotExist` failure
(entry skipped, or link target absent) is ignored as in the code. -/
def entrySwitch (dest : List String) (fs : Fs) (e : Entry) (io : IOFail) :
    Except (String × Fs) Fs :=
  match e.header.typeflag with
  | .dir =>
    match io.mkdirErr with
    | some m => .error ("failed to mkdir: " ++ m, fs)
    | none => .ok (mkdirAll fs (joinComps dest e.header.name) e.header.mode)
  | .reg =>
    match io.createErr with
    | some m => .error ("failed to create: " ++ m, fs)
    | none =>
      match io.copyErr with
      | some m => .error ("failed to copy: " ++ m,
          fs.set (joinComps dest e.header.name) (.file "" 438))
      | none =>
        match io.closeErr with
        | some m => .error ("failed to close: " ++ m,
            fs.set (joinComps dest e.header.name) (.file e.content 438))
        | none => .ok (fs.set (joinComps dest e.header.name)
            (.file e.content 438))
  | .symlink =>
    match io.symlinkErr with
    | some m => .error ("failed symlink: " ++ m, fs)
    | none => .ok (fs.set (joinComps dest e.header.name)
        (.symlink (symlinkStoredTarget dest e.header.name e.header.linkname)
          511))
  | .other => .ok fs

/-- The trailing `os.Chmod(targetPath, header.FileInfo().Mode())`. -/
def entryChmod (dest : List String) (e : Entry) (io : IOFail) (fs1 : Fs) :
    Except (String × Fs) Fs :=
  match io.chmodErr with
  | some m => .error ("failed to chmod: " ++ m, fs1)
  | none =>
    match fs1.get (joinComps dest e.header.name) with
    | some n => .ok (fs1.set (joinComps dest e.header.name)
        (n.withMode e.header.mode))
    | none => .ok fs1

def processEntry (dest : List String) (fs : Fs) (e : Entry) (io : IOFail) :
    Except (String × Fs) Fs :=
  match entrySwitch dest fs e io with
  | .error pr => .error pr
  | .ok fs1 => entryChmod dest e io fs1

/-- The entry loop of `extractTarGz`. -/
def extractLoop : List TarItem → List String → Fs → ExtractResult
  | [], _, fs => .ok fs
  | .readErr m :: _, _, fs => .err ("error reading tar: " ++ m) fs
  | .entry e io :: rest, dest, fs =>
    match processEntry dest fs e io with
    | .error (m, fs') => .panicked m fs'
    | .ok fs' => extractLoop rest dest fs'

/-- `extractTarGz(gzipStream, targetDir)`: the stream is modelled by the
outcome of `gzip.NewReader` plus the sequence of tar items it yields. -/
def extractTarGz (gzErr : Option String) (items : List TarItem)
    (dest : List String) (fs : Fs) : ExtractResult :=
  match gzErr with
  | some m => .err ("failed to create gzip reader: " ++ m) fs
  | none => extractLoop items dest fs

/-- A decoded layer descriptor (the `Manifest.Layers` element struct). -/
structure Layer where
  digest : String
  size : Int
  mediaType : String
  deriving DecidableEq, Repr

/-- The decoded platform manifest (`Manifest` struct). -/
structure Manifest where
  layers : List Layer
  deriving DecidableEq, Repr

/-- The registry's answer to one blob request, keyed by digest: a transport
error from `client.Do`, a non-200 status with its body, or a 200 whose body
is the modelled gzip stream. -/
inductive BlobResp
  | httpErr (msg : String)
  | status (code : Nat) (body : String)
  | okBlob (gzErr : Option String) (items : List TarItem)

/-- The layer loop of `getAllLayers`: layers strictly in manifest order,
each fetched and extracted before the next. -/
def layersLoop : List Layer → (String → BlobResp) → List String → Fs →
    ExtractResult
  | [], _, _, fs => .ok fs
  | l :: rest, resp, dest, fs =>
    match resp l.digest with
    | .httpErr m => .err m fs
    | .status code body =>
      .err ("failed to download layer: " ++ l.digest ++ " (" ++ toString code
        ++ "): " ++ body) fs
    | .okBlob gzErr items =>
      match extractTarGz gzErr items dest fs with
      | .ok fs' => layersLoop rest resp dest fs'
      | .err m fs' =>
        .err ("error extracting layer " ++ l.digest ++ ": " ++ m) fs'
      | .panicked m fs' => .panicked m fs'

/-- `getAllLayers(manifest, imageName, token, jailPath)`; `resp` gives the
registry's answer to each blob request. -/
def getAllLayers (manifest : Manifest) (resp : String → BlobResp)
    (dest : List String) (fs : Fs) : ExtractResult :=
  layersLoop manifest.layers resp dest fs

/-- The entry of a single tar item if it extracts to `p`. -/
def itemEntryAt (dest p : List String) : TarItem → Option Entry
  | .entry e _ => if joinComps dest e.header.name = p then some e else none
  | .readErr _ => none

/-- Left-biased choice on optional entries. -/
def olast (a b : Option Entry) : Option Entry :=
  match a with
  | some e => some e
  | none => b

/-- The last archive entry of `items` whose extraction path
`filepath.Join(dest, header.Name)` equals `p`. -/
def lastEntryAt (dest p : List String) : List TarItem → Option Entry
  | [] => none
  | it :: rest => olast (lastEntryAt dest p rest) (itemEntryAt dest p it)

/-! ## Registry model

`getManifestUrl` fetches the manifest list and linearly scans it for the
host platform; `getImageManifest` then fetches the platform manifest and
JSON-decodes it.  Transport and HTTP-status failures are modelled as the
`Except.error` alternative of each decoded response. -/

/-- One element of `ManifestList.Manifests` (its `platform` inlined). -/
structure PlatformManifest where
  mediaType : String
  digest : String
  architecture : String
  os : String
  deriving DecidableEq, Repr

/-- The decoded `ManifestList` struct. -/
structure ManifestList where
  schemaVersion : Int
  mediaType : String
  manifests : List PlatformManifest
  deriving DecidableEq, Repr

/-- The scan loop of `getManifestUrl`: first entry whose platform equals the
host's `{GOARCH, GOOS}`, else the `Manifest not found` error. -/
def findPlatformDigest (systemOS systemArch : String) :
    List PlatformManifest → Except String String
  | [] => .error "Manifest not found"
  | m :: rest =>
    if m.architecture = systemArch ∧ m.os = systemOS then .ok m.digest
    else findPlatformDigest systemOS systemArch rest

/-- `getManifestUrl(imageName, imageVersion, token)`: the manifest-list
request's decoded outcome (`.error` for transport, non-200 or JSON-decode
failures, as the code returns those before the scan), then the platform
scan. -/
def getManifestUrl (systemOS systemArch : String)
    (listResp : Except String ManifestList) : Except String String :=
  match listResp with
  | .error m => .error m
  | .ok ml => findPlatformDigest systemOS systemArch ml.manifests

/-! ### JSON decoding of the platform manifest

A minimal model of `encoding/json` unmarshalling into the `Manifest` struct:
a missing or `null` member leaves the zero value, a wrong-typed member is a
decode error.  (Go also matches field names case-insensitively and lets a
duplicate key's last value win; registry payloads use exact lower-case keys
once, where the two semantics agree.) -/

inductive Json
  | null
  | jbool (b : Bool)
  | jnum (n : Int)
  | jstr (s : String)
  | jarr (xs : List Json)
  | jobj (fields : List (String × Json))

/-- Last binding of key `k` (later duplicate keys overwrite earlier ones). -/
def jlookup : List (String × Json) → String → Option Json
  | [], _ => none
  | (k', v) :: rest, k =>
    match jlookup rest k with
    | some w => some w
    | none => if k' = k then some v else none

def decodeString : Json → Except String String
  | .null => .ok ""
  | .jstr s => .ok s
  | _ => .error "json: cannot unmarshal into field of type string"

def decodeInt : Json → Except String Int
  | .null => .ok 0
  | .jnum n => .ok n
  | _ => .error "json: cannot unmarshal into field of type int"

/-- Decode one element of `Manifest.Layers`: each member optional (zero
value when missing), wrong-typed members abort the decode. -/
def decodeLayer (j : Json) : Except String Layer :=
  match j with
  | .null => .ok ⟨"", 0, ""⟩
  | .jobj flds =>
    match (jlookup flds "digest").elim (Except.ok "") decodeString with
    | .error e => .error e
    | .ok digest =>
      match (jlookup flds "size").elim (Except.ok 0) decodeInt with
      | .error e => .error e
      | .ok size =>
        match (jlookup flds "mediaType").elim (Except.ok "") decodeString with
        | .error e => .error e
        | .ok mediaType => .ok ⟨digest, size, mediaType⟩
  | _ => .error "json: cannot unmarshal into struct layer"

def decodeLayerList : List Json → Except String (List Layer)
  | [] => .ok []
  | j :: rest =>
    match decodeLayer j with
    | .error e => .error e
    | .ok l =>
      match decodeLayerList rest with
      | .error e => .error e
      | .ok ls => .ok (l :: ls)

def decodeLayers : Json → Except String (List Layer)
  | .null => .ok []
  | .jarr xs => decodeLayerList xs
  | _ => .error "json: cannot unmarshal into field Layers"

/-- `json.NewDecoder(resp.Body).Decode(&manifest)` for the `Manifest`
struct. -/
def decodeManifest (j : Json) : Except String Manifest :=
  match j with
  | .null => .ok ⟨[]⟩
  | .jobj flds =>
    match (jlookup flds "layers").elim (Except.ok []) decodeLayers with
    | .error e => .error e
    | .ok layers => .ok ⟨layers⟩
  | _ => .error "json: cannot unmarshal into struct Manifest"

/-- `getImageManifest(imageName, imageVersion, token)`: resolve the platform
digest, then fetch and decode the platform manifest.  `manifestBody` is the
second request's outcome (`.error` for transport failures). -/
def getImageManifest (systemOS systemArch : String)
    (listResp : Except String ManifestList)
    (manifestBody : Except String Json) : Except String Manifest :=
  match getManifestUrl systemOS systemArch listResp with
  | .error m => .error m
  | .ok _ =>
    match manifestBody with
    | .error m => .error m
    | .ok j => decodeManifest j

/-! ## Request-string model (`fmt.Sprintf` calls) -/

/-- The repository in `getAuthToken`'s scope: `library/` is prepended only
when the name has no `/`. -/
def authTokenRepo (imageName : String) : String :=
  if '/' ∈ imageName.data then imageName else "library/" ++ imageName

/-- The token-request URL built by `getAuthToken`. -/
def authURL (imageName : String) : String :=
  "https://auth.docker.io/token?service=registry.docker.io&scope=repository:"
    ++ authTokenRepo imageName ++ ":pull"

/-- The URL built by both `getManifestUrl` and `getImageManifest`
(`/v2/library/%s/manifests/%s`). -/
def manifestRequestURL (imageName ref : String) : String :=
  "https://registry.hub.docker.com/v2/library/" ++ imageName
    ++ "/manifests/" ++ ref

/-- The URL built by `getAllLayers` (`/v2/library/%s/blobs/%s`). -/
def blobRequestURL (imageName digest : String) : String :=
  "https://registry.hub.docker.com/v2/library/" ++ imageName
    ++ "/blobs/" ++ digest

/-- The repository a `/v2/<repo>/...` request addresses, for the URLs this
program builds. -/
def registryRepo (imageName : String) : String :=
  "library/" ++ imageName

/-! ## Process-exit model (`cmd.Run()` and lines 142–147 of `main`) -/

/-- How the target process ends: a normal exit with a code, death by a
signal, or a failure to launch (e.g. `exec` could not find the binary). -/
inductive Termination
  | exited (code : Nat)
  | signaled (sig : Nat)
  | startFailure
  deriving DecidableEq, Repr

/-- What `cmd.Run()` returns: `nil` when the process started and exited 0,
an `*exec.ExitError` when it started but its wait status was unsuccessful
(nonzero exit or signal), some other error when it never started. -/
inductive CmdRunResult
  | success
  | exitError (t : Termination)
  | otherError
  deriving DecidableEq, Repr

def cmdRun : Termination → CmdRunResult
  | .exited 0 => .success
  | .exited (c + 1) => .exitError (.exited (c + 1))
  | .signaled s => .exitError (.signaled s)
  | .startFailure => .otherError

/-- `(*exec.ExitError).ExitCode()`: the exit code when the process exited,
`-1` when it was terminated by a signal (os/exec documentation). -/
def exitErrorCode : Termination → Int
  | .exited c => (c : Int)
  | .signaled _ => -1
  | .startFailure => -1

/-- The value `main` passes to `os.Exit` after `cmd.Run()` (falling through
to a normal return, hence process status 0, when `Run` returns `nil`). -/
def mainExitStatus (t : Termination) : Int :=
  match cmdRun t with
  | .success => 0
  | .exitError t' => exitErrorCode t'
  | .otherError => 1

/-- The process status the operating system reports for an `os.Exit(i)`
call: the low 8 bits of the status argument. -/
def observedStatus (i : Int) : Nat :=
  (i % 256).toNat

/-! ## Jail-constructor model (`main` lines 94–115 and `copyFile`) -/

/-- `copyFile(src, dst)`: open the host file, `os.Create` the destination
(mode `0o666` before umask), copy the content, then `out.Chmod(0755)` —
the destination mode never depends on the source file's mode.  The modelled
success path requires a readable regular file at `src`; any `os.Open`
failure is the error return. -/
def copyFile (hostFs : Fs) (src dst : List String) (fs : Fs) :
    Except String Fs :=
  match hostFs.get src with
  | some (.file c _) => .ok ((fs.set dst (.file c 438)).set dst (.file c 493))
  | _ => .error "open failed"

/-- Lines 94–115 of `main` (the spec's `ensureRunnable`): if the command's
path already exists inside the jail it is left untouched; otherwise
`os.MkdirAll(filepath.Dir(destPath), 0755)` then `copyFile(command,
destPath)`. -/
def ensureRunnable (hostFs : Fs) (chrootDir command : List String)
    (fs : Fs) : Except String Fs :=
  match fs.get (joinComps chrootDir command) with
  | some _ => .ok fs
  | none =>
    copyFile hostFs command (joinComps chrootDir command)
      (mkdirAll fs (dirComps (joinComps chrootDir command)) 493)

/-! ## Trace model of `main`

`main` is a cascade of side-effecting steps, each gating the next and each
failure path printing to stderr and calling `os.Exit(1)`.  The oracle fixes
each step's outcome (decided at run time by the network and the OS); the
model returns the ordered list of steps attempted, the stderr lines and the
process exit status.  `getImageNameAndVersion` has no failing branch (both
its returns carry a `nil` error), so its error check in `main` is dead and
contributes no step. -/

/-- The side-effecting steps of `main`, in program order. -/
inductive Ev
  | authReq      -- getAuthToken: token request to the auth endpoint
  | manifestReq  -- getImageManifest: manifest-list and manifest requests
  | mkJail       -- os.MkdirTemp: create the jail directory
  | fetchLayers  -- getAllLayers: blob requests and extraction into the jail
  | statCmd      -- os.Stat on destPath
  | mkdirParents -- os.MkdirAll for the command's parent directories
  | copyCmd      -- copyFile of the host binary into the jail
  | chrootCall   -- syscall.Chroot(chrootDir)
  | chdirCall    -- os.Chdir("/")
  | spawnCmd     -- cmd.Run(): process created in new PID/UTS namespaces
  deriving DecidableEq, Repr

/-- Outcome of the `os.Stat(destPath)` check. -/
inductive StatOutcome
  | present     -- the image supplied the binary
  | missing     -- os.IsNotExist: project the host binary in
  | statFailed  -- any other stat error
  deriving DecidableEq, Repr

/-- Outcomes of `main`'s side-effecting steps. -/
structure MainOracle where
  authR : Except String String
  manifestR : Except String Manifest
  mkTempOk : Bool
  layersOk : Bool
  stat : StatOutcome
  mkdirOk : Bool
  copyOk : Bool
  chrootOk : Bool
  chdirOk : Bool
  runT : Termination

/-- What a run of `main` did: the steps attempted in order, the stderr
lines, and the process exit status. -/
structure MainResult where
  events : List Ev
  stderr : List String
  exitCode : Int
  deriving DecidableEq, Repr

def usageMsg : String :=
  "\nuse: run <image> <command> <arg1> <arg2> .... <argN>"

/-- Lines 117–147 of `main`: chroot, chdir, then fork/exec and status
propagation. -/
def confineAndRun (pre : List Ev) (o : MainOracle) : MainResult :=
  if o.chrootOk = false then
    ⟨pre ++ [.chrootCall], ["Chroot failed"], 1⟩
  else if o.chdirOk = false then
    ⟨pre ++ [.chrootCall, .chdirCall], ["Chdir failed"], 1⟩
  else
    ⟨pre ++ [.chrootCall, .chdirCall, .spawnCmd], [], mainExitStatus o.runT⟩

/-- `func main`. -/
def mainRun (argv : List String) (o : MainOracle) : MainResult :=
  if argv.length < 4 ∨ argv.get? 1 ≠ some "run" then
    ⟨[], [usageMsg], 1⟩
  else
    match o.authR with
    | .error m => ⟨[.authReq], ["Auth failed: " ++ m], 1⟩
    | .ok _ =>
      match o.manifestR with
      | .error m =>
        ⟨[.authReq, .manifestReq], ["Get manifest failed: " ++ m], 1⟩
      | .ok _ =>
        if o.mkTempOk = false then
          ⟨[.authReq, .manifestReq, .mkJail], ["Failed to create chroot dr"], 1⟩
        else if o.layersOk = false then
          ⟨[.authReq, .manifestReq, .mkJail, .fetchLayers],
            ["Get all layers failed"], 1⟩
        else
          match o.stat with
          | .statFailed =>
            ⟨[.authReq, .manifestReq, .mkJail, .fetchLayers, .statCmd],
              ["Failed to check if binary exists in image"], 1⟩
          | .missing =>
            if o.mkdirOk = false then
              ⟨[.authReq, .manifestReq, .mkJail, .fetchLayers, .statCmd,
                .mkdirParents], ["Failed to mkdir"], 1⟩
            else if o.copyOk = false then
              ⟨[.authReq, .manifestReq, .mkJail, .fetchLayers, .statCmd,
                .mkdirParents, .copyCmd], ["Failed to copy binary"], 1⟩
            else
              confineAndRun [.authReq, .manifestReq, .mkJail, .fetchLayers,
                .statCmd, .mkdirParents, .copyCmd] o
          | .present =>
            confineAndRun [.authReq, .manifestReq, .mkJail, .fetchLayers,
              .statCmd] o

/-- A run in which every step succeeds and the image supplies the binary. -/
def oracleAllOk : MainOracle :=
  ⟨.ok "tok", .ok ⟨[]⟩, true, true, .present, true, true, true, true,
    .exited 0⟩

/-- The all-success run except that `syscall.Chroot` fails. -/
def oracleChrootFail : MainOracle :=
  ⟨.ok "tok", .ok ⟨[]⟩, true, true, .present, true, true, false, true,
    .exited 0⟩

/-- The all-success run except that manifest resolution found no platform. -/
def oracleNoPlatform : MainOracle :=
  ⟨.ok "tok", .error "Manifest not found", true, true, .present, true, true,
    true, true, .exited 0⟩

/-- A well-formed invocation. -/
def argvRun : List String :=
  ["mydocker", "run", "alpine:latest", "/bin/echo", "hey"]

/-! ### Path lemmas -/

theorem foldl_cleanStep_normal (acc : List String) :
    ∀ cs : List String, NormalComps cs →
      cs.foldl cleanStep acc = acc ++ cs := by
  intro cs
  induction cs generalizing acc with
  | nil => intro _; simp
  | cons c cs ih =>
    intro h
    have hc := h c (by simp)
    have hcs : NormalComps cs := fun x hx => h x (by simp [hx])
    simp only [List.foldl_cons]
    rw [ih (cleanStep acc c) hcs]
    simp [cleanStep, hc.1, hc.2.1, hc.2.2]

theorem cleanComps_of_normal {cs : List String} (h : NormalComps cs) :
    cleanComps cs = cs := by
  simpa using foldl_cleanStep_normal [] cs h

/-- A run of `".."`s cancels a normal suffix of the accumulator. -/
theorem foldl_cleanStep_dotdot :
    ∀ a b : List String,
      (List.replicate a.length "..").foldl cleanStep (b ++ a) = b := by
  intro a
  induction a using List.reverseRecOn with
  | nil => intro b; simp
  | append_singleton a x ih =>
    intro b
    rw [List.length_append, List.length_singleton, List.replicate_succ,
      List.foldl_cons]
    have h1 : ¬((".." : String) = "" ∨ (".." : String) = ".") := by decide
    have hstep : cleanStep (b ++ (a ++ [x])) ".." = b ++ a := by
      simp only [cleanStep, if_neg h1, if_pos rfl, if_true,
        ← List.append_assoc, List.dropLast_concat]
    rw [hstep]
    exact ih b

/-- `dropCommon` decomposes its arguments along their common prefix. -/
theorem dropCommon_spec :
    ∀ a t : List String, ∃ c : List String,
      a = c ++ (dropCommon a t).1 ∧ t = c ++ (dropCommon a t).2 := by
  intro a
  induction a with
  | nil => intro t; exact ⟨[], by simp [dropCommon], by cases t <;> simp [dropCommon]⟩
  | cons x xs ih =>
    intro t
    cases t with
    | nil => exact ⟨[], by simp [dropCommon], by simp [dropCommon]⟩
    | cons y ys =>
      by_cases hxy : x = y
      · obtain ⟨c, hc1, hc2⟩ := ih ys
        have hd : dropCommon (x :: xs) (y :: ys) = dropCommon xs ys := by
          simp [dropCommon, hxy]
        refine ⟨x :: c, ?_, ?_⟩
        · rw [hd, List.cons_append, ← hc1]
        · rw [hd, List.cons_append, ← hc2, hxy]
      · exact ⟨[], by simp [dropCommon, hxy], by simp [dropCommon, hxy]⟩

theorem dropCommon_sub_left :
    ∀ a t : List String, ∀ x ∈ (dropCommon a t).1, x ∈ a := by
  intro a
  induction a with
  | nil => intro t x hx; simp [dropCommon] at hx
  | cons u us ih =>
    intro t x hx
    cases t with
    | nil => simpa [dropCommon] using hx
    | cons v vs =>
      by_cases huv : u = v
      · simp only [dropCommon, if_pos huv] at hx
        exact List.mem_cons_of_mem _ (ih vs x hx)
      · simpa [dropCommon, huv] using hx

theorem dropCommon_sub_right :
    ∀ a t : List String, ∀ x ∈ (dropCommon a t).2, x ∈ t := by
  intro a
  induction a with
  | nil => intro t x hx; simpa [dropCommon] using hx
  | cons u us ih =>
    intro t x hx
    cases t with
    | nil => simp [dropCommon] at hx
    | cons v vs =>
      by_cases huv : u = v
      · simp only [dropCommon, if_pos huv] at hx
        exact List.mem_cons_of_mem _ (ih vs x hx)
      · simpa [dropCommon, huv] using hx

/-- Resolving `filepath.Rel(a, t)` against `a` yields `t` again, for cleaned
absolute `a`, `t`. -/
theorem cleanComps_append_relComps {a t : List String}
    (ha : NormalComps a) (ht : NormalComps t) :
    cleanComps (a ++ relComps a t) = t := by
  obtain ⟨c, hc1, hc2⟩ := dropCommon_spec a t
  have ha' : NormalComps (dropCommon a t).1 := fun x hx =>
    ha x (dropCommon_sub_left a t x hx)
  have ht' : NormalComps (dropCommon a t).2 := fun x hx =>
    ht x (dropCommon_sub_right a t x hx)
  have hanorm : NormalComps (c ++ (dropCommon a t).1) := hc1 ▸ ha
  have hrel : relComps a t =
      List.replicate (dropCommon a t).1.length ".." ++ (dropCommon a t).2 := rfl
  calc cleanComps (a ++ relComps a t)
      = ((List.replicate (dropCommon a t).1.length ".." ++
          (dropCommon a t).2).foldl cleanStep
            ((c ++ (dropCommon a t).1).foldl cleanStep []) : List String) := by
        rw [hrel, ← hc1]; unfold cleanComps; rw [List.foldl_append]
    _ = (dropCommon a t).2.foldl cleanStep
          ((List.replicate (dropCommon a t).1.length "..").foldl cleanStep
            (c ++ (dropCommon a t).1)) := by
        rw [List.foldl_append, foldl_cleanStep_normal [] _ hanorm,
          List.nil_append]
    _ = (dropCommon a t).2.foldl cleanStep c := by
        rw [foldl_cleanStep_dotdot]
    _ = c ++ (dropCommon a t).2 := foldl_cleanStep_normal c _ ht'
    _ = t := hc2.symm

/-- Stripping a common leading prefix does not change the relative path. -/
theorem relComps_append (c a t : List String) :
    relComps (c ++ a) (c ++ t) = relComps a t := by
  induction c with
  | nil => simp
  | cons x xs ih => simpa [relComps, dropCommon] using ih

/-! ### Filesystem lemmas -/

theorem Fs.get_set_self (fs : Fs) (p : List String) (n : FsNode) :
    (fs.set p n).get p = some n := by
  simp [Fs.set, Fs.get]

theorem Fs.get_set_ne (fs : Fs) {p q : List String} (n : FsNode)
    (h : q ≠ p) : (fs.set q n).get p = fs.get p := by
  simp [Fs.set, Fs.get, h]

theorem mkdirStep_get_some {fs : Fs} {p : List String} {v : FsNode}
    (h : fs.get p = some v) (q : List String) (m i : Nat) :
    (mkdirStep q m fs i).get p = some v := by
  unfold mkdirStep
  cases hq : fs.get (q.take (i + 1)) with
  | some _ => simpa using h
  | none =>
    by_cases hqp : q.take (i + 1) = p
    · rw [hqp, h] at hq; cases hq
    · rw [Fs.get_set_ne _ _ hqp]; exact h

theorem mkdirAll_get_some {fs : Fs} {p : List String} {v : FsNode}
    (h : fs.get p = some v) (q : List String) (m : Nat) :
    (mkdirAll fs q m).get p = some v := by
  unfold mkdirAll
  generalize List.range q.length = l
  induction l generalizing fs with
  | nil => simpa using h
  | cons i l ih =>
    rw [List.foldl_cons]
    exact ih (mkdirStep_get_some h q m i)

theorem mkdirStep_isSome {fs : Fs} {p : List String}
    (h : (fs.get p).isSome) (q : List String) (m i : Nat) :
    ((mkdirStep q m fs i).get p).isSome := by
  obtain ⟨v, hv⟩ := Option.isSome_iff_exists.mp h
  rw [mkdirStep_get_some hv q m i]; rfl

theorem foldl_mkdirStep_isSome (q : List String) (m : Nat) {p : List String} :
    ∀ (l : List Nat) (fs : Fs), ((fs.get p).isSome) →
      (((l.foldl (mkdirStep q m) fs).get p).isSome) := by
  intro l
  induction l with
  | nil => intro fs h; simpa using h
  | cons i l ih =>
    intro fs h
    rw [List.foldl_cons]
    exact ih _ (mkdirStep_isSome h q m i)

theorem mkdirStep_self_isSome (fs : Fs) (q : List String) (m i : Nat) :
    ((mkdirStep q m fs i).get (q.take (i + 1))).isSome := by
  unfold mkdirStep
  cases hq : fs.get (q.take (i + 1)) with
  | some _ => simp [hq]
  | none => rw [Fs.get_set_self]; rfl

/-- After `os.MkdirAll(q, m)` every nonempty prefix of `q` exists. -/
theorem mkdirAll_prefixes_exist (fs : Fs) (q : List String) (m : Nat)
    {i : Nat} (hi : i < q.length) :
    (((mkdirAll fs q m).get (q.take (i + 1))).isSome) := by
  obtain ⟨s, t, hst⟩ := List.append_of_mem (List.mem_range.mpr hi)
  unfold mkdirAll
  rw [hst, List.foldl_append, List.foldl_cons]
  exact foldl_mkdirStep_isSome q m _ _ (mkdirStep_self_isSome _ q m i)

/-! ### Extraction lemmas -/

theorem entrySwitch_preserves {dest p : List String} {fs fs1 : Fs}
    {e : Entry} {io : IOFail} {v : FsNode}
    (hne : joinComps dest e.header.name ≠ p)
    (hok : entrySwitch dest fs e io = .ok fs1)
    (h : fs.get p = some v) : fs1.get p = some v := by
  unfold entrySwitch at hok
  cases hflag : e.header.typeflag <;> rw [hflag] at hok
  case dir =>
    cases hmk : io.mkdirErr <;> rw [hmk] at hok
    case some => cases hok
    case none => cases hok; exact mkdirAll_get_some h _ _
  case reg =>
    cases hcr : io.createErr <;> rw [hcr] at hok
    case some => cases hok
    case none =>
      cases hcp : io.copyErr <;> rw [hcp] at hok
      case some => cases hok
      case none =>
        cases hcl : io.closeErr <;> rw [hcl] at hok
        case some => cases hok
        case none =>
          cases hok
          rw [Fs.get_set_ne _ _ hne]
          exact h
  case symlink =>
    cases hsl : io.symlinkErr <;> rw [hsl] at hok
    case some => cases hok
    case none =>
      cases hok
      rw [Fs.get_set_ne _ _ hne]
      exact h
  case other => cases hok; exact h

theorem entryChmod_preserves {dest p : List String} {fs1 fs' : Fs}
    {e : Entry} {io : IOFail} {v : FsNode}
    (hne : joinComps dest e.header.name ≠ p)
    (hok : entryChmod dest e io fs1 = .ok fs')
    (h : fs1.get p = some v) : fs'.get p = some v := by
  unfold entryChmod at hok
  cases hch : io.chmodErr <;> rw [hch] at hok
  case some => cases hok
  case none =>
    cases hg : fs1.get (joinComps dest e.header.name) <;> rw [hg] at hok
    · cases hok; exact h
    · cases hok
      rw [Fs.get_set_ne _ _ hne]
      exact h

/-- Processing an entry whose extraction path is not `p` leaves an existing
node at `p` unchanged. -/
theorem processEntry_preserves {dest p : List String} {fs fs' : Fs}
    {e : Entry} {io : IOFail} {v : FsNode}
    (hne : joinComps dest e.header.name ≠ p)
    (hok : processEntry dest fs e io = .ok fs')
    (h : fs.get p = some v) : fs'.get p = some v := by
  unfold processEntry at hok
  cases hsw : entrySwitch dest fs e io <;> rw [hsw] at hok
  case error => cases hok
  case ok fs1 =>
    exact entryChmod_preserves hne hok (entrySwitch_preserves hne hsw h)

/-- A loop over entries none of which extracts to `p` leaves an existing
node at `p` unchanged. -/
theorem extractLoop_preserves {dest p : List String} {v : FsNode} :
    ∀ {items : List TarItem} {fs fs' : Fs},
      extractLoop items dest fs = .ok fs' →
      lastEntryAt dest p items = none →
      fs.get p = some v → fs'.get p = some v := by
  intro items
  induction items with
  | nil =>
    intro fs fs' hok _ h
    cases hok
    exact h
  | cons it rest ih =>
    intro fs fs' hok hnone h
    cases it with
    | readErr m => cases hok
    | entry e io =>
      simp only [lastEntryAt, olast, itemEntryAt] at hnone
      cases hrest : lastEntryAt dest p rest <;> rw [hrest] at hnone
      case some => cases hnone
      case none =>
        have hne : joinComps dest e.header.name ≠ p := by
          intro hcontra
          rw [if_pos hcontra] at hnone
          cases hnone
        unfold extractLoop at hok
        cases hpe : processEntry dest fs e io <;> rw [hpe] at hok
        case error => cases hok
        case ok fs1 =>
          exact ih hok hrest (processEntry_preserves hne hpe h)

/-- If the last entry extracting to `p` is a regular file and the loop
succeeds, `p` holds that entry's content, at the mode its header declared
(the trailing `os.Chmod`). -/
theorem extractLoop_lastEntry_reg {dest p : List String} {e : Entry} :
    ∀ {items : List TarItem} {fs fs' : Fs},
      extractLoop items dest fs = .ok fs' →
      lastEntryAt dest p items = some e →
      e.header.typeflag = .reg →
      fs'.get p = some (.file e.content e.header.mode) := by
  intro items
  induction items with
  | nil => intro fs fs' _ hlast _; cases hlast
  | cons it rest ih =>
    intro fs fs' hok hlast hreg
    cases it with
    | readErr m => cases hok
    | entry e' io =>
      unfold extractLoop at hok
      cases hpe : processEntry dest fs e' io <;> rw [hpe] at hok
      case error => cases hok
      case ok fs1 =>
        simp only [lastEntryAt, olast, itemEntryAt] at hlast
        cases hrest : lastEntryAt dest p rest <;> rw [hrest] at hlast
        case some => cases hlast; exact ih hok hrest hreg
        case none =>
          by_cases hp : joinComps dest e'.header.name = p
          · rw [if_pos hp] at hlast
            cases hlast
            unfold processEntry at hpe
            cases hsw : entrySwitch dest fs e io <;> rw [hsw] at hpe
            · cases hpe
            · unfold entrySwitch at hsw
              rw [hreg] at hsw
              cases hcr : io.createErr <;> rw [hcr] at hsw
              · cases hcp : io.copyErr <;> rw [hcp] at hsw
                · cases hcl : io.closeErr <;> rw [hcl] at hsw
                  · cases hsw
                    have hpe' : entryChmod dest e io
                        (fs.set (joinComps dest e.header.name)
                          (.file e.content 438)) = .ok fs1 := hpe
                    unfold entryChmod at hpe'
                    cases hch : io.chmodErr <;> rw [hch] at hpe'
                    · rw [Fs.get_set_self] at hpe'
                      cases hpe'
                      have h1 : (Fs.set
                          (fs.set (joinComps dest e.header.name)
                            (.file e.content 438))
                          (joinComps dest e.header.name)
                          (FsNode.withMode (.file e.content 438)
                            e.header.mode)).get p
                          = some (.file e.content e.header.mode) := by
                        rw [← hp, Fs.get_set_self]
                        rfl
                      exact extractLoop_preserves hok hrest h1
                    · cases hpe'
                  · cases hsw
                · cases hsw
              · cases hsw
          · rw [if_neg hp] at hlast
            cases hlast

/-! ### Normal-path helpers -/

theorem normalComps_append {a b : List String}
    (ha : NormalComps a) (hb : NormalComps b) : NormalComps (a ++ b) := by
  intro c hc
  rcases List.mem_append.mp hc with h | h
  · exact ha c h
  · exact hb c h

theorem normalComps_dropLast {a : List String} (ha : NormalComps a) :
    NormalComps a.dropLast :=
  fun c hc => ha c ((List.dropLast_sublist a).subset hc)

theorem dropLast_append_ne {b : List String} (a : List String) (hb : b ≠ []) :
    (a ++ b).dropLast = a ++ b.dropLast := by
  induction b using List.reverseRecOn with
  | nil => cases hb rfl
  | append_singleton b x _ =>
    rw [← List.append_assoc, List.dropLast_concat, List.dropLast_concat]

/-! ## Claim theorems: extraction -/

/-- C1: a symbolic-link entry is recreated at `destRoot ++ entry.path` as a
relative link computed by
`filepath.Rel(filepath.Dir(destRoot/path), filepath.Join(destRoot, linkname))`;
when the archive target names a sibling file in the link's own directory
(the target path rooted at the jail, `filepath.Join` treating a root-rooted
and an absolute target alike), reading the stored link relative to its own
directory with the Jail Root as filesystem root resolves to that sibling. -/
theorem symlink_entry_resolves_to_sibling
    (dest : List String) (e : Entry) (io : IOFail) (fs fs' : Fs) (f : String)
    (hdest : NormalComps dest) (hname : NormalComps e.header.name)
    (hne : e.header.name ≠ [])
    (hflag : e.header.typeflag = .symlink)
    (hlink : e.header.linkname = dirComps e.header.name ++ [f])
    (hf : f ≠ "" ∧ f ≠ "." ∧ f ≠ "..")
    (hok : processEntry dest fs e io = .ok fs') :
    (∃ m, Fs.get fs' (joinComps dest e.header.name) = some
        (.symlink (symlinkStoredTarget dest e.header.name e.header.linkname) m))
    ∧ resolveFromJail e.header.name
        (symlinkStoredTarget dest e.header.name e.header.linkname)
      = dirComps e.header.name ++ [f] := by
  have hlinknorm : NormalComps e.header.linkname := by
    rw [hlink]
    refine normalComps_append (normalComps_dropLast hname) ?_
    intro c hc
    rw [List.mem_singleton] at hc
    subst hc
    exact hf
  constructor
  · -- the node stored by the extraction step
    unfold processEntry at hok
    cases hsw : entrySwitch dest fs e io <;> rw [hsw] at hok
    · cases hok
    · unfold entrySwitch at hsw
      rw [hflag] at hsw
      cases hsl : io.symlinkErr <;> rw [hsl] at hsw
      · cases hsw
        have hok' : entryChmod dest e io
            (fs.set (joinComps dest e.header.name)
              (.symlink
                (symlinkStoredTarget dest e.header.name e.header.linkname)
                511)) = .ok fs' := hok
        unfold entryChmod at hok'
        cases hch : io.chmodErr <;> rw [hch] at hok'
        · rw [Fs.get_set_self] at hok'
          cases hok'
          refine ⟨e.header.mode, ?_⟩
          rw [Fs.get_set_self]
          rfl
        · cases hok'
      · cases hsw
  · -- the stored relative target resolves to the sibling under the jail root
    have hjoin_name : joinComps dest e.header.name = dest ++ e.header.name :=
      cleanComps_of_normal (normalComps_append hdest hname)
    have hjoin_link : joinComps dest e.header.linkname =
        dest ++ e.header.linkname :=
      cleanComps_of_normal (normalComps_append hdest hlinknorm)
    unfold symlinkStoredTarget
    rw [hjoin_name, hjoin_link]
    unfold dirComps
    rw [dropLast_append_ne dest hne, relComps_append]
    unfold resolveFromJail dirComps
    rw [cleanComps_append_relComps (normalComps_dropLast hname) hlinknorm,
      hlink]
    rfl

/-- Witness for C1: jail `/tmp/jail`, entry `bin/link` whose archive target
is the sibling `bin/sh`; the stored link resolves to `bin/sh`. -/
theorem symlink_entry_resolves_to_sibling_witness :
    (∃ m, Fs.get
        [(["tmp", "jail", "bin", "link"], FsNode.symlink ["sh"] 511),
         (["tmp", "jail", "bin", "link"], FsNode.symlink ["sh"] 511)]
        (joinComps ["tmp", "jail"] ["bin", "link"]) = some
        (.symlink
          (symlinkStoredTarget ["tmp", "jail"] ["bin", "link"] ["bin", "sh"])
          m))
    ∧ resolveFromJail ["bin", "link"]
        (symlinkStoredTarget ["tmp", "jail"] ["bin", "link"] ["bin", "sh"])
      = dirComps ["bin", "link"] ++ ["sh"] :=
  symlink_entry_resolves_to_sibling ["tmp", "jail"]
    ⟨⟨["bin", "link"], .symlink, ["bin", "sh"], 511⟩, ""⟩ noFail []
    [(["tmp", "jail", "bin", "link"], FsNode.symlink ["sh"] 511),
     (["tmp", "jail", "bin", "link"], FsNode.symlink ["sh"] 511)]
    "sh" (by decide) (by decide) (by decide) rfl rfl (by decide) rfl

theorem extractTarGz_ok_inv {gz : Option String} {items : List TarItem}
    {dest : List String} {fs fs' : Fs}
    (h : extractTarGz gz items dest fs = .ok fs') :
    gz = none ∧ extractLoop items dest fs = .ok fs' := by
  cases gz with
  | none => exact ⟨rfl, h⟩
  | some m => cases h

theorem layersLoop_cons_ok {l : Layer} {rest : List Layer}
    {resp : String → BlobResp} {dest : List String} {fs fs2 : Fs}
    (hok : layersLoop (l :: rest) resp dest fs = .ok fs2) :
    ∃ gz items fs1, resp l.digest = .okBlob gz items ∧
      extractTarGz gz items dest fs = .ok fs1 ∧
      layersLoop rest resp dest fs1 = .ok fs2 := by
  unfold layersLoop at hok
  cases hr : resp l.digest <;> rw [hr] at hok
  case httpErr => cases hok
  case status => cases hok
  case okBlob gz items =>
    have hok' : (match extractTarGz gz items dest fs with
      | ExtractResult.ok fs' => layersLoop rest resp dest fs'
      | ExtractResult.err m fs' =>
        ExtractResult.err
          ("error extracting layer " ++ l.digest ++ ": " ++ m) fs'
      | ExtractResult.panicked m fs' => ExtractResult.panicked m fs')
        = .ok fs2 := hok
    cases hex : extractTarGz gz items dest fs <;> rw [hex] at hok'
    case ok fs1 => exact ⟨gz, items, fs1, rfl, hex, hok'⟩
    case err => cases hok'
    case panicked => cases hok'

/-- C4: with layers applied strictly in manifest order, when the second
layer's archive writes a regular file at path `p` — also written with
different content by the first layer — the jail's node at `p` after a
successful `getAllLayers` run holds the second layer's content
(last write wins). -/
theorem layers_last_write_wins
    (a b : Layer) (resp : String → BlobResp) (dest : List String)
    (fs0 fs2 : Fs) (itemsA itemsB : List TarItem) (gzA gzB : Option String)
    (eA eB : Entry) (p : List String)
    (hrA : resp a.digest = .okBlob gzA itemsA)
    (hrB : resp b.digest = .okBlob gzB itemsB)
    (hlastA : lastEntryAt dest p itemsA = some eA)
    (hAreg : eA.header.typeflag = .reg)
    (hlastB : lastEntryAt dest p itemsB = some eB)
    (hBreg : eB.header.typeflag = .reg)
    (hdiff : eA.content ≠ eB.content)
    (hok : getAllLayers ⟨[a, b]⟩ resp dest fs0 = .ok fs2) :
    Fs.get fs2 p = some (.file eB.content eB.header.mode) := by
  have hok0 : layersLoop [a, b] resp dest fs0 = .ok fs2 := hok
  obtain ⟨gz1, items1, fs1, hr1, hex1, hloop1⟩ := layersLoop_cons_ok hok0
  obtain ⟨gz2, items2, fsend, hr2, hex2, hloop2⟩ := layersLoop_cons_ok hloop1
  have hfsend : fsend = fs2 := by
    unfold layersLoop at hloop2
    cases hloop2
    rfl
  subst hfsend
  rw [hrB] at hr2
  cases hr2
  obtain ⟨-, hloopB⟩ := extractTarGz_ok_inv hex2
  exact extractLoop_lastEntry_reg hloopB hlastB hBreg

/-- Witness for C4: layer `da` writes file `f` with content `A`, layer `db`
rewrites it with content `B`; after merging in order the jail holds `B`. -/
theorem layers_last_write_wins_witness :
    Fs.get [(["f"], FsNode.file "B" 420), (["f"], FsNode.file "B" 438),
      (["f"], FsNode.file "A" 420), (["f"], FsNode.file "A" 438)] ["f"]
      = some (.file "B" 420) :=
  layers_last_write_wins ⟨"da", 3, "t"⟩ ⟨"db", 3, "t"⟩
    (fun d => if d = "da"
      then .okBlob none [.entry ⟨⟨["f"], .reg, [], 420⟩, "A"⟩ noFail]
      else .okBlob none [.entry ⟨⟨["f"], .reg, [], 420⟩, "B"⟩ noFail])
    [] []
    [(["f"], FsNode.file "B" 420), (["f"], FsNode.file "B" 438),
     (["f"], FsNode.file "A" 420), (["f"], FsNode.file "A" 438)]
    [.entry ⟨⟨["f"], .reg, [], 420⟩, "A"⟩ noFail]
    [.entry ⟨⟨["f"], .reg, [], 420⟩, "B"⟩ noFail]
    none none
    ⟨⟨["f"], .reg, [], 420⟩, "A"⟩ ⟨⟨["f"], .reg, [], 420⟩, "B"⟩ ["f"]
    rfl rfl rfl rfl rfl rfl (by decide) (by decide)

/-- C2 (code bug): each of the four I/O failure classes the claim names —
directory creation, file creation, content copy, permission setting — makes
`extractTarGz` call `panic`, an unrecoverable abort carrying no typed
`ExtractError`, no layer digest and no entry path, instead of returning an
error value. -/
theorem extract_io_failure_panics :
    (extractTarGz none
      [.entry ⟨⟨["d"], .dir, [], 493⟩, ""⟩
        ⟨some "no space left on device", none, none, none, none, none⟩]
      [] [] = .panicked "failed to mkdir: no space left on device" [])
    ∧ (getAllLayers ⟨[⟨"sha256:0a1b", 5, "tar+gzip"⟩]⟩
      (fun _ => .okBlob none
        [.entry ⟨⟨["a"], .reg, [], 420⟩, "x"⟩
          ⟨none, some "disk full", none, none, none, none⟩])
      [] [] = .panicked "failed to create: disk full" [])
    ∧ (extractTarGz none
      [.entry ⟨⟨["a"], .reg, [], 420⟩, "x"⟩
        ⟨none, none, some "input/output error", none, none, none⟩]
      [] [] = .panicked "failed to copy: input/output error"
        [(["a"], .file "" 438)])
    ∧ (extractTarGz none
      [.entry ⟨⟨["a"], .reg, [], 420⟩, "x"⟩
        ⟨none, none, none, none, none, some "operation not permitted"⟩]
      [] [] = .panicked "failed to chmod: operation not permitted"
        [(["a"], .file "x" 438)]) := by
  decide

theorem Fs.set_isSome {fs : Fs} {p : List String}
    (h : (fs.get p).isSome) (q : List String) (n : FsNode) :
    ((fs.set q n).get p).isSome := by
  by_cases hqp : q = p
  · subst hqp; rw [Fs.get_set_self]; rfl
  · rw [Fs.get_set_ne _ _ hqp]; exact h

/-! ## Claim theorems: provisioning, URLs, exit codes -/

/-- C7: when the target path is absent from the jail, `ensureRunnable`
creates every parent directory, copies the host binary in and sets mode
`0o755` (owner-executable) regardless of the host file's mode; when the
image supplies the path, the jail is returned untouched, with no
permission normalization. -/
theorem ensureRunnable_provisions (hostFs : Fs)
    (chrootDir command : List String) (fs : Fs) :
    (∀ c hm, fs.get (joinComps chrootDir command) = none →
      hostFs.get command = some (.file c hm) →
      ∃ fs', ensureRunnable hostFs chrootDir command fs = .ok fs'
        ∧ fs'.get (joinComps chrootDir command) = some (.file c 493)
        ∧ 493 &&& 64 ≠ 0
        ∧ (∀ i < (dirComps (joinComps chrootDir command)).length,
            ((fs'.get
              ((dirComps (joinComps chrootDir command)).take (i + 1))).isSome)))
    ∧ (∀ n, fs.get (joinComps chrootDir command) = some n →
        ensureRunnable hostFs chrootDir command fs = .ok fs) := by
  constructor
  · intro c hm habs hhost
    unfold ensureRunnable
    rw [habs]
    unfold copyFile
    rw [hhost]
    refine ⟨_, rfl, ?_, by decide, ?_⟩
    · rw [Fs.get_set_self]
    · intro i hi
      exact Fs.set_isSome
        (Fs.set_isSome (mkdirAll_prefixes_exist fs _ 493 hi) _ _) _ _
  · intro n hpres
    unfold ensureRunnable
    rw [hpres]

/-- Witness for C7: both branches — the command `/bin/run` absent from an
empty jail is projected in at mode `0o755`; a jail already holding it is
returned unchanged. -/
theorem ensureRunnable_provisions_witness :
    (∃ fs', ensureRunnable [(["bin", "run"], FsNode.file "ELF" 420)]
        ["jail"] ["bin", "run"] [] = .ok fs'
      ∧ fs'.get (joinComps ["jail"] ["bin", "run"]) =
          some (.file "ELF" 493)
      ∧ 493 &&& 64 ≠ 0
      ∧ (∀ i < (dirComps (joinComps ["jail"] ["bin", "run"])).length,
          ((fs'.get
            ((dirComps (joinComps ["jail"] ["bin", "run"])).take
              (i + 1))).isSome)))
    ∧ ensureRunnable [(["bin", "run"], FsNode.file "ELF" 420)]
        ["jail"] ["bin", "run"]
        [(["jail", "bin", "run"], FsNode.file "fromimage" 420)]
      = .ok [(["jail", "bin", "run"], FsNode.file "fromimage" 420)] :=
  ⟨(ensureRunnable_provisions [(["bin", "run"], FsNode.file "ELF" 420)]
      ["jail"] ["bin", "run"] []).1 "ELF" 420 rfl rfl,
   (ensureRunnable_provisions [(["bin", "run"], FsNode.file "ELF" 420)]
      ["jail"] ["bin", "run"]
      [(["jail", "bin", "run"], FsNode.file "fromimage" 420)]).2
     (FsNode.file "fromimage" 420) rfl⟩

/-- C10: every manifest and blob request addresses repository
`library/<name>` with the parsed name spliced in verbatim, while the token
scope prepends `library/` only when the name has no `/`; for a namespaced
name the token's repository therefore differs from the one the requests
address. -/
theorem namespaced_name_scope_mismatch (imageName tag digest : String)
    (h : '/' ∈ imageName.data) :
    authTokenRepo imageName = imageName
    ∧ manifestRequestURL imageName tag =
        "https://registry.hub.docker.com/v2/" ++ registryRepo imageName
          ++ "/manifests/" ++ tag
    ∧ blobRequestURL imageName digest =
        "https://registry.hub.docker.com/v2/" ++ registryRepo imageName
          ++ "/blobs/" ++ digest
    ∧ authTokenRepo imageName ≠ registryRepo imageName := by
  have hrepo : authTokenRepo imageName = imageName := by
    unfold authTokenRepo
    rw [if_pos h]
  have hsplit : ("https://registry.hub.docker.com/v2/" ++ "library/" : String)
      = "https://registry.hub.docker.com/v2/library/" := rfl
  refine ⟨hrepo, ?_, ?_, ?_⟩
  · unfold manifestRequestURL registryRepo
    rw [← String.append_assoc, hsplit]
  · unfold blobRequestURL registryRepo
    rw [← String.append_assoc, hsplit]
  · rw [hrepo]
    unfold registryRepo
    intro heq
    have hlen := congrArg String.length heq
    rw [String.length_append] at hlen
    have h8 : ("library/" : String).length = 8 := rfl
    omega

/-- Witness for C10: the namespaced name `myuser/app`. -/
theorem namespaced_name_scope_mismatch_witness :
    authTokenRepo "myuser/app" = "myuser/app"
    ∧ manifestRequestURL "myuser/app" "latest" =
        "https://registry.hub.docker.com/v2/" ++ registryRepo "myuser/app"
          ++ "/manifests/" ++ "latest"
    ∧ blobRequestURL "myuser/app" "sha256:d" =
        "https://registry.hub.docker.com/v2/" ++ registryRepo "myuser/app"
          ++ "/blobs/" ++ "sha256:d"
    ∧ authTokenRepo "myuser/app" ≠ registryRepo "myuser/app" :=
  namespaced_name_scope_mismatch "myuser/app" "latest" "sha256:d" (by decide)

/-- C3 is refuted at a signal-terminated target: `cmd.Run` reports an
`*exec.ExitError` whose `ExitCode()` is `-1`, and `main` passes that to
`os.Exit` — observed process status 255, not the claimed fallback 1. -/
theorem signal_termination_not_exit_one :
    mainExitStatus (.signaled 9) = -1
    ∧ mainExitStatus (.signaled 9) ≠ 1
    ∧ observedStatus (mainExitStatus (.signaled 9)) = 255
    ∧ observedStatus (mainExitStatus (.signaled 9)) ≠ 1 := by
  decide

/-- C3 amended: the target's exit code is propagated verbatim when it
exited with a code, a launch-time failure yields the fallback 1, but a
signal-terminated target yields `ExitCode() = -1` (status byte 255), not
the fallback. -/
theorem exit_code_mapping :
    (∀ c : Nat, mainExitStatus (.exited c) = (c : Int))
    ∧ mainExitStatus .startFailure = 1
    ∧ (∀ s : Nat, mainExitStatus (.signaled s) = -1
        ∧ observedStatus (mainExitStatus (.signaled s)) = 255) := by
  refine ⟨?_, rfl, ?_⟩
  · intro c
    cases c <;> rfl
  · intro s
    exact ⟨rfl, rfl⟩

/-! ## Claim theorems: `main`'s control flow -/

/-- C9: with fewer than 4 tokens, or a first argument other than `run`,
`main` exits with status 1 after printing only the usage line: no step is
attempted — no network request, no filesystem mutation. -/
theorem usage_error_no_side_effects (argv : List String) (o : MainOracle)
    (h : argv.length < 4 ∨ argv.get? 1 ≠ some "run") :
    mainRun argv o = ⟨[], [usageMsg], 1⟩ := by
  unfold mainRun
  rw [if_pos h]

/-- Witness for C9: a single-token invocation. -/
theorem usage_error_no_side_effects_witness :
    mainRun ["mydocker"]
      ⟨.ok "tok", .ok ⟨[]⟩, true, true, .present, true, true, true, true,
        .exited 0⟩ = ⟨[], [usageMsg], 1⟩ :=
  usage_error_no_side_effects ["mydocker"]
    ⟨.ok "tok", .ok ⟨[]⟩, true, true, .present, true, true, true, true,
      .exited 0⟩ (by decide)

/-- C8: the target process is spawned only after chroot and chdir succeed,
which in turn happen only after the layers are extracted and the binary
provisioned (the trace is one of the two full sequences); chroot is
attempted only with layers extracted and provisioning settled; and a
failing chroot or chdir ends the run with exit status 1 and no spawn. -/
theorem confinement_before_spawn (argv : List String) (o : MainOracle) :
    (Ev.spawnCmd ∈ (mainRun argv o).events →
      o.chrootOk = true ∧ o.chdirOk = true ∧ o.layersOk = true ∧
      ((mainRun argv o).events =
          [.authReq, .manifestReq, .mkJail, .fetchLayers, .statCmd,
            .chrootCall, .chdirCall, .spawnCmd]
        ∨ (mainRun argv o).events =
          [.authReq, .manifestReq, .mkJail, .fetchLayers, .statCmd,
            .mkdirParents, .copyCmd, .chrootCall, .chdirCall, .spawnCmd]))
    ∧ (Ev.chrootCall ∈ (mainRun argv o).events →
        o.layersOk = true ∧ Ev.fetchLayers ∈ (mainRun argv o).events ∧
        (o.stat = .present
          ∨ (o.stat = .missing ∧ o.mkdirOk = true ∧ o.copyOk = true)))
    ∧ (Ev.chrootCall ∈ (mainRun argv o).events → o.chrootOk = false →
        (mainRun argv o).exitCode = 1
          ∧ Ev.spawnCmd ∉ (mainRun argv o).events)
    ∧ (Ev.chdirCall ∈ (mainRun argv o).events → o.chdirOk = false →
        (mainRun argv o).exitCode = 1
          ∧ Ev.spawnCmd ∉ (mainRun argv o).events) := by
  unfold mainRun confineAndRun
  by_cases hu : argv.length < 4 ∨ argv.get? 1 ≠ some "run"
  · rw [if_pos hu]
    simp
  · rw [if_neg hu]
    rcases o with ⟨authR, manifestR, mkTempOk, layersOk, stat, mkdirOk,
      copyOk, chrootOk, chdirOk, runT⟩
    rcases authR with m | tok
    · simp
    · rcases manifestR with m | man
      · simp
      · cases mkTempOk <;> cases layersOk <;> cases stat <;>
          cases mkdirOk <;> cases copyOk <;> cases chrootOk <;>
            cases chdirOk <;> simp

/-- Witness for C8: the all-success run (image supplies the binary), and a
run whose chroot fails. -/
theorem confinement_before_spawn_witness :
    (oracleAllOk.chrootOk = true ∧ oracleAllOk.chdirOk = true
      ∧ oracleAllOk.layersOk = true
      ∧ ((mainRun argvRun oracleAllOk).events =
          [.authReq, .manifestReq, .mkJail, .fetchLayers, .statCmd,
            .chrootCall, .chdirCall, .spawnCmd]
        ∨ (mainRun argvRun oracleAllOk).events =
          [.authReq, .manifestReq, .mkJail, .fetchLayers, .statCmd,
            .mkdirParents, .copyCmd, .chrootCall, .chdirCall, .spawnCmd]))
    ∧ ((mainRun argvRun oracleChrootFail).exitCode = 1
      ∧ Ev.spawnCmd ∉ (mainRun argvRun oracleChrootFail).events) :=
  ⟨(confinement_before_spawn argvRun oracleAllOk).1 (by decide),
   (confinement_before_spawn argvRun oracleChrootFail).2.2.1
     (by decide) rfl⟩

theorem findPlatformDigest_no_match {systemOS systemArch : String} :
    ∀ {ms : List PlatformManifest},
      (∀ pm ∈ ms, ¬(pm.architecture = systemArch ∧ pm.os = systemOS)) →
      findPlatformDigest systemOS systemArch ms = .error "Manifest not found"
  | [], _ => rfl
  | m :: rest, h => by
    unfold findPlatformDigest
    rw [if_neg (h m (List.mem_cons_self m rest))]
    exact findPlatformDigest_no_match fun pm hpm =>
      h pm (List.mem_cons_of_mem m hpm)

/-- C5: when no manifest-list entry matches the host's `{os, architecture}`
exactly, resolution fails with the `Manifest not found` error — no fallback
platform — and `main` stops before the jail directory is created and before
any layer is fetched. -/
theorem no_platform_match_stops_run
    (systemOS systemArch : String) (ml : ManifestList)
    (body : Except String Json) (argv : List String) (o : MainOracle)
    (hnone : ∀ pm ∈ ml.manifests,
      ¬(pm.architecture = systemArch ∧ pm.os = systemOS))
    (ho : o.manifestR = getImageManifest systemOS systemArch (.ok ml) body) :
    getImageManifest systemOS systemArch (.ok ml) body =
        .error "Manifest not found"
    ∧ Ev.mkJail ∉ (mainRun argv o).events
    ∧ Ev.fetchLayers ∉ (mainRun argv o).events := by
  have hres : getImageManifest systemOS systemArch (.ok ml) body =
      .error "Manifest not found" := by
    simp only [getImageManifest, getManifestUrl,
      findPlatformDigest_no_match hnone]
  refine ⟨hres, ?_⟩
  rw [hres] at ho
  rcases o with ⟨authR, manifestR, mkTempOk, layersOk, stat, mkdirOk,
    copyOk, chrootOk, chdirOk, runT⟩
  simp only at ho
  subst ho
  unfold mainRun
  by_cases hu : argv.length < 4 ∨ argv.get? 1 ≠ some "run"
  · rw [if_pos hu]
    simp
  · rw [if_neg hu]
    rcases authR with m | tok <;> simp

/-- Witness for C5: an `arm64` manifest list resolved on an `amd64` host. -/
theorem no_platform_match_stops_run_witness :
    getImageManifest "linux" "amd64"
        (.ok ⟨2, "application/vnd.docker.distribution.manifest.list.v2+json",
          [⟨"application/vnd.docker.distribution.manifest.v2+json",
            "sha256:aa", "arm64", "linux"⟩]⟩) (.ok .null) =
      .error "Manifest not found"
    ∧ Ev.mkJail ∉ (mainRun argvRun oracleNoPlatform).events
    ∧ Ev.fetchLayers ∉ (mainRun argvRun oracleNoPlatform).events :=
  no_platform_match_stops_run "linux" "amd64"
    ⟨2, "application/vnd.docker.distribution.manifest.list.v2+json",
      [⟨"application/vnd.docker.distribution.manifest.v2+json",
        "sha256:aa", "arm64", "linux"⟩]⟩ (.ok .null)
    argvRun oracleNoPlatform (by decide) rfl

/-! ## Claim theorems: manifest decoding (C6) -/

/-- C6 is refuted: digests are validated only by successful decode — a
registry body whose layer object carries no digest member decodes
successfully, so the pipeline yields a Manifest with an empty-digest Layer
Descriptor. -/
theorem empty_digest_pipeline_succeeds :
    ∃ m : Manifest, getImageManifest "linux" "amd64"
      (.ok ⟨2, "application/vnd.docker.distribution.manifest.list.v2+json",
        [⟨"application/vnd.docker.distribution.manifest.v2+json",
          "sha256:d", "amd64", "linux"⟩]⟩)
      (.ok (.jobj [("layers", .jarr [.jobj []])])) = .ok m
      ∧ ∃ l ∈ m.layers, l.digest = "" :=
  ⟨⟨[⟨"", 0, ""⟩]⟩, rfl, ⟨"", 0, ""⟩, List.mem_singleton.mpr rfl, rfl⟩

theorem decodeLayerList_digests :
    ∀ {xs : List Json} {ls : List Layer},
      decodeLayerList xs = .ok ls →
      (∀ j ∈ xs, ∃ o s, j = Json.jobj o
        ∧ jlookup o "digest" = some (.jstr s) ∧ s ≠ "") →
      ∀ l ∈ ls, l.digest ≠ "" := by
  intro xs
  induction xs with
  | nil =>
    intro ls hdec _ l hl
    cases hdec
    exact absurd hl (List.not_mem_nil l)
  | cons j rest ih =>
    intro ls hdec hx l hl
    unfold decodeLayerList at hdec
    cases hd : decodeLayer j <;> rw [hd] at hdec
    · cases hdec
    · cases hrest : decodeLayerList rest <;> rw [hrest] at hdec
      · cases hdec
      · cases hdec
        rcases List.mem_cons.mp hl with hEq | hMem
        · subst hEq
          obtain ⟨o, s, hjo, hlook, hs⟩ := hx j (List.mem_cons_self j rest)
          subst hjo
          have hd2 : (match (jlookup o "digest").elim (Except.ok "")
                decodeString with
            | Except.error e => Except.error e
            | Except.ok digest =>
              match (jlookup o "size").elim (Except.ok 0) decodeInt with
              | Except.error e => Except.error e
              | Except.ok size =>
                match (jlookup o "mediaType").elim (Except.ok "")
                    decodeString with
                | Except.error e => Except.error e
                | Except.ok mediaType =>
                  Except.ok (⟨digest, size, mediaType⟩ : Layer))
              = Except.ok l := hd
          rw [hlook] at hd2
          have hd3 : (match (jlookup o "size").elim (Except.ok 0)
                decodeInt with
            | Except.error e => Except.error e
            | Except.ok size =>
              match (jlookup o "mediaType").elim (Except.ok "")
                  decodeString with
              | Except.error e => Except.error e
              | Except.ok mediaType =>
                Except.ok (⟨s, size, mediaType⟩ : Layer))
              = Except.ok l := hd2
          cases hsz : (jlookup o "size").elim (Except.ok 0) decodeInt <;>
            rw [hsz] at hd3
          · cases hd3
          · cases hmt : (jlookup o "mediaType").elim (Except.ok "")
                decodeString <;> rw [hmt] at hd3
            · cases hd3
            · cases hd3
              exact hs
        · exact ih hrest
            (fun j' hj' => hx j' (List.mem_cons_of_mem j hj')) l hMem

/-- C6 amended: no non-emptiness validation is performed on digests — the
Manifest's layer digests are exactly the strings decoded from the registry
body, so they are non-empty precisely when the body's layer objects carry
non-empty digest strings.  Under that assumption on the response, every
Layer Descriptor of a successful run has a non-empty digest. -/
theorem pipeline_digests_nonempty
    (systemOS systemArch : String) (listR : Except String ManifestList)
    (flds : List (String × Json)) (xs : List Json) (m : Manifest)
    (hrun : getImageManifest systemOS systemArch listR
      (.ok (.jobj flds)) = .ok m)
    (hl : jlookup flds "layers" = some (.jarr xs))
    (hx : ∀ j ∈ xs, ∃ o s, j = Json.jobj o
      ∧ jlookup o "digest" = some (.jstr s) ∧ s ≠ "") :
    ∀ l ∈ m.layers, l.digest ≠ "" := by
  unfold getImageManifest at hrun
  cases hg : getManifestUrl systemOS systemArch listR <;> rw [hg] at hrun
  · cases hrun
  · have hrun' : (match (jlookup flds "layers").elim (Except.ok [])
          decodeLayers with
      | Except.error e => Except.error e
      | Except.ok layers => Except.ok (⟨layers⟩ : Manifest))
        = Except.ok m := hrun
    rw [hl] at hrun'
    have hrun2 : (match decodeLayerList xs with
      | Except.error e => Except.error e
      | Except.ok layers => Except.ok (⟨layers⟩ : Manifest))
        = Except.ok m := hrun'
    cases hdec : decodeLayerList xs <;> rw [hdec] at hrun2
    · cases hrun2
    · cases hrun2
      exact decodeLayerList_digests hdec hx

/-- Witness for C6 (amended): a body whose single layer object carries the
digest `sha256:abc`. -/
theorem pipeline_digests_nonempty_witness :
    (⟨"sha256:abc", 5, "t"⟩ : Layer).digest ≠ "" :=
  pipeline_digests_nonempty "linux" "amd64"
    (.ok ⟨2, "application/vnd.docker.distribution.manifest.list.v2+json",
      [⟨"application/vnd.docker.distribution.manifest.v2+json",
        "sha256:d", "amd64", "linux"⟩]⟩)
    [("layers", .jarr [.jobj [("digest", .jstr "sha256:abc"),
      ("size", .jnum 5), ("mediaType", .jstr "t")]])]
    [.jobj [("digest", .jstr "sha256:abc"), ("size", .jnum 5),
      ("mediaType", .jstr "t")]]
    ⟨[⟨"sha256:abc", 5, "t"⟩]⟩ rfl rfl
    (by
      intro j hj
      rw [List.mem_singleton] at hj
      subst hj
      exact ⟨[("digest", .jstr "sha256:abc"), ("size", .jnum 5),
        ("mediaType", .jstr "t")], "sha256:abc", rfl, rfl, by decide⟩)
    ⟨"sha256:abc", 5, "t"⟩ (List.mem_singleton.mpr rfl)

end MiniDocker
